import Mathlib

/-!
Verification development for the stocks store module of a zakat calculator
(src/store/modules/stocks.ts). JavaScript numbers are shallowly embedded as
exact rationals plus the IEEE special values; persisted, possibly ill-typed
state is embedded with explicit `Option` fields; functions that can throw
return `Option`. External collaborators (price source, currency converter,
ambient clock) are passed as explicit parameters.
-/

/-- A JavaScript number: a finite value, modelled exactly as a rational,
or one of the IEEE special values. -/
inductive JSNum where
  | fin (q : ℚ)
  | posInf
  | negInf
  | nan
deriving DecidableEq, Repr

namespace JSNum

/-- JavaScript addition of two numbers (IEEE semantics, finite values exact). -/
def add : JSNum → JSNum → JSNum
  | nan, _ => nan
  | _, nan => nan
  | posInf, negInf => nan
  | negInf, posInf => nan
  | posInf, _ => posInf
  | _, posInf => posInf
  | negInf, _ => negInf
  | _, negInf => negInf
  | fin a, fin b => fin (a + b)

/-- JavaScript multiplication of two numbers (sign of zero is not modelled). -/
def mul : JSNum → JSNum → JSNum
  | nan, _ => nan
  | _, nan => nan
  | fin a, fin b => fin (a * b)
  | fin a, posInf => if a = 0 then nan else if 0 < a then posInf else negInf
  | fin a, negInf => if a = 0 then nan else if 0 < a then negInf else posInf
  | posInf, fin b => if b = 0 then nan else if 0 < b then posInf else negInf
  | negInf, fin b => if b = 0 then nan else if 0 < b then negInf else posInf
  | posInf, posInf => posInf
  | posInf, negInf => negInf
  | negInf, posInf => negInf
  | negInf, negInf => posInf

/-- JavaScript division of two numbers (sign of zero is not modelled). -/
def div : JSNum → JSNum → JSNum
  | nan, _ => nan
  | _, nan => nan
  | fin a, fin b =>
      if b = 0 then (if a = 0 then nan else if 0 < a then posInf else negInf)
      else fin (a / b)
  | fin _, posInf => fin 0
  | fin _, negInf => fin 0
  | posInf, fin b => if 0 ≤ b then posInf else negInf
  | negInf, fin b => if 0 ≤ b then negInf else posInf
  | posInf, posInf => nan
  | posInf, negInf => nan
  | negInf, posInf => nan
  | negInf, negInf => nan

/-- The `Number.isFinite` predicate. -/
def isFinite : JSNum → Bool
  | fin _ => true
  | _ => false

/-- JavaScript truthiness of a number: zero and NaN are falsy. -/
def truthy : JSNum → Bool
  | fin q => decide (q ≠ 0)
  | nan => false
  | _ => true

/-- The idiom `v || 0`: falsy numbers (zero, NaN) are replaced by 0. -/
def orZero (v : JSNum) : JSNum :=
  if v.truthy then v else fin 0

/-- JavaScript strict inequality `!==` on numbers: NaN is unequal to everything,
NaN included. -/
def strictNe : JSNum → JSNum → Bool
  | nan, _ => true
  | _, nan => true
  | fin a, fin b => decide (a ≠ b)
  | a, b => decide (a ≠ b)

/-- The comparison `v > 0` (false on NaN). -/
def gtZero : JSNum → Bool
  | fin q => decide (0 < q)
  | posInf => true
  | _ => false

/-- The comparison `v <= 0` (false on NaN). -/
def leZero : JSNum → Bool
  | fin q => decide (q ≤ 0)
  | negInf => true
  | _ => false

end JSNum

/-- Coercion of a possibly missing numeric field into JavaScript arithmetic:
a missing value (undefined) becomes NaN. -/
def jsOfOpt : Option JSNum → JSNum
  | some v => v
  | none => .nan

/-- The idiom `x || 0` applied to a possibly missing numeric field. -/
def optOrZero : Option JSNum → JSNum
  | some v => v.orZero
  | none => .fin 0

/-- The idiom `s || d` for a possibly missing string field: a missing or
empty (falsy) string falls back to the default. -/
def strOr (o : Option String) (d : String) : String :=
  match o with
  | some s => if s = "" then d else s
  | none => d

/-- Modelled from the spec: `roundCurrency` from the external currency utility
module (not part of the analysed source) rounds a value to currency precision,
taken here as two decimal places with the semantics of `Math.round`. -/
def roundCurrencyQ (q : ℚ) : ℚ := ((q * 100 + 1 / 2).floor : ℤ) / 100

/-- `roundCurrency` on a JavaScript number: finite values are rounded, the
IEEE special values pass through `Math.round` unchanged. -/
def jsRoundCurrency : JSNum → JSNum
  | .fin q => .fin (roundCurrencyQ q)
  | v => v

/-- Modelled from the spec: the fixed zakat rate constant imported from the
external constants module (the customary 2.5 percent). -/
def ZAKAT_RATE : ℚ := 1 / 40

/-- One row of the passive `investments` list; rows pass through migration
unexamined. -/
structure Investment where
  id : String
  name : String
  shares : JSNum
  pricePerShare : JSNum
  marketValue : JSNum
deriving DecidableEq, Repr

/-- Display block attached to company financials. -/
structure CompanyDisplayProperties where
  currency : String
  sharePercentage : JSNum
deriving DecidableEq, Repr

/-- Company financials used by the detailed valuation method; passed through
migration unexamined. -/
structure CompanyData where
  cash : JSNum
  receivables : JSNum
  inventory : JSNum
  totalShares : JSNum
  yourShares : JSNum
  displayProperties : Option CompanyDisplayProperties := none
deriving DecidableEq, Repr

/-- Untrusted hawl block as read from persisted state. -/
structure RawHawlStatus where
  isComplete : Option Bool := none
  startDate : Option String := none
  endDate : Option String := none
deriving DecidableEq, Repr

/-- Untrusted display block as read from persisted state. -/
structure RawDisplayProperties where
  currency : Option String := none
  method : Option String := none
  totalLabel : Option String := none
deriving DecidableEq, Repr

/-- CurrentPassiveInvestmentState from the source: a persisted passive
investment blob of unknown or legacy shape. Every field may be missing or
ill-typed, which is modelled with `Option` (a `none` stands for a field that
is absent or fails the corresponding runtime type guard). -/
structure RawPassiveState where
  version : Option String := none
  investments : Option (List Investment) := none
  method : Option String := none
  marketValue : Option JSNum := none
  zakatableValue : Option JSNum := none
  companyData : Option CompanyData := none
  hawlStatus : Option RawHawlStatus := none
  displayProperties : Option RawDisplayProperties := none
deriving DecidableEq, Repr

/-- Canonical hawl block of the V2 schema. -/
structure HawlStatusV2 where
  isComplete : Bool
  startDate : String
  endDate : Option String := none
deriving DecidableEq, Repr

/-- Canonical display block of the V2 schema. -/
structure DisplayPropertiesV2 where
  currency : String
  method : String
  totalLabel : String
deriving DecidableEq, Repr

/-- PassiveInvestmentStateV2, the canonical schema produced by migration. -/
structure PassiveInvestmentState where
  version : String
  investments : List Investment
  method : String
  marketValue : JSNum
  zakatableValue : JSNum
  companyData : Option CompanyData := none
  hawlStatus : HawlStatusV2
  displayProperties : DisplayPropertiesV2
deriving DecidableEq, Repr

/-- The ambient clock, passed explicitly: `Date.now().toString()` (used for
fresh placeholder ids) and `new Date().toISOString()` (used for hawl start
dates). -/
structure Now where
  idStr : String
  iso : String
deriving DecidableEq, Repr

/-- The sanitized `method` field: the check
`typeof state.method === 'string' && ['quick','detailed'].includes(state.method)`
keeps a recognized raw value and defaults anything else to `quick`. -/
def sanitizeMethod (m : Option String) : String :=
  match m with
  | some v => if v = "quick" ∨ v = "detailed" then v else "quick"
  | none => "quick"

/-- The label expression `state.method === 'quick' ? '30% Rule' : 'CRI Method'`,
computed from the raw field. -/
def methodLabel (m : Option String) : String :=
  if m = some "quick" then "30% Rule" else "CRI Method"

/-- The label expression
`state.method === 'quick' ? 'Total Investments' : 'Total Company Assets'`,
computed from the raw field. -/
def totalLabelOf (m : Option String) : String :=
  if m = some "quick" then "Total Investments" else "Total Company Assets"

/-- The single empty placeholder investment row created when the persisted
list is not an array. -/
def placeholderInvestment (now : Now) : Investment :=
  { id := now.idStr, name := "", shares := .fin 0, pricePerShare := .fin 0,
    marketValue := .fin 0 }

/-- Migration branch for unversioned (pre-versioning) persisted state. -/
def migrateUnversioned (now : Now) (state : RawPassiveState) : PassiveInvestmentState :=
  { version := "2.0",
    investments := (state.investments).getD [placeholderInvestment now],
    method := sanitizeMethod state.method,
    marketValue := (state.marketValue).getD (.fin 0),
    zakatableValue := (state.zakatableValue).getD (.fin 0),
    companyData := state.companyData,
    hawlStatus := { isComplete := false, startDate := now.iso, endDate := none },
    displayProperties := { currency := "USD", method := methodLabel state.method,
                           totalLabel := totalLabelOf state.method } }

/-- Migration branch for V1 state; the source duplicates the unversioned
logic field for field. -/
def migrateV1 (now : Now) (state : RawPassiveState) : PassiveInvestmentState :=
  { version := "2.0",
    investments := (state.investments).getD [placeholderInvestment now],
    method := sanitizeMethod state.method,
    marketValue := (state.marketValue).getD (.fin 0),
    zakatableValue := (state.zakatableValue).getD (.fin 0),
    companyData := state.companyData,
    hawlStatus := { isComplete := false, startDate := now.iso, endDate := none },
    displayProperties := { currency := "USD", method := methodLabel state.method,
                           totalLabel := totalLabelOf state.method } }

/-- Migration branch for V2 state: every field is re-validated independently;
the method label and total label are always recomputed from the raw `method`. -/
def migrateV2 (now : Now) (state : RawPassiveState) : PassiveInvestmentState :=
  { version := "2.0",
    investments := (state.investments).getD [],
    method := sanitizeMethod state.method,
    marketValue := (state.marketValue).getD (.fin 0),
    zakatableValue := (state.zakatableValue).getD (.fin 0),
    companyData := state.companyData,
    hawlStatus := { isComplete := ((state.hawlStatus).bind (·.isComplete)).getD false,
                    startDate := strOr ((state.hawlStatus).bind (·.startDate)) now.iso,
                    endDate := (state.hawlStatus).bind (·.endDate) },
    displayProperties := { currency := ((state.displayProperties).bind (·.currency)).getD "USD",
                           method := methodLabel state.method,
                           totalLabel := totalLabelOf state.method } }

/-- migratePassiveInvestments from the source. It never throws: the body is a
total dispatch on the version discriminant. A falsy version field (missing or
the empty string) selects the unversioned branch, the recognized tags select
their branches, and any other tag resolves to `none` (undefined). -/
def migratePassiveInvestments (now : Now) (state? : Option RawPassiveState) :
    Option PassiveInvestmentState :=
  match state? with
  | none => none
  | some state =>
    match state.version with
    | none => some (migrateUnversioned now state)
    | some v =>
      if v = "" then some (migrateUnversioned now state)
      else if v = "1.0" then some (migrateV1 now state)
      else if v = "2.0" then some (migrateV2 now state)
      else none

/-- Re-injection of a canonical V2 state into the untrusted input shape, for
feeding a migration result back into the migrator. -/
def PassiveInvestmentState.toRaw (s : PassiveInvestmentState) : RawPassiveState :=
  { version := some s.version,
    investments := some s.investments,
    method := some s.method,
    marketValue := some s.marketValue,
    zakatableValue := some s.zakatableValue,
    companyData := s.companyData,
    hawlStatus := some { isComplete := some s.hawlStatus.isComplete,
                         startDate := some s.hawlStatus.startDate,
                         endDate := s.hawlStatus.endDate },
    displayProperties := some { currency := some s.displayProperties.currency,
                                method := some s.displayProperties.method,
                                totalLabel := some s.displayProperties.totalLabel } }

/-- One actively traded stock position. -/
structure ActiveStock where
  symbol : String
  shares : JSNum
  currentPrice : JSNum
  marketValue : JSNum
  zakatDue : JSNum
  lastUpdated : String
  currency : Option String := none
  sourceCurrency : Option String := none
deriving DecidableEq, Repr

/-- The StockValues aggregate: the active holdings, the legacy cached
market/zakatable pair, dividends, and the current passive-investment blob
(kept in its untrusted persisted shape, as the getters re-guard every read). -/
structure StockValues where
  activeStocks : List ActiveStock
  market_value : JSNum
  zakatable_value : JSNum
  total_dividend_earnings : Option JSNum := none
  fund_value : Option JSNum := none
  is_passive_fund : Option Bool := none
  passiveInvestments : Option RawPassiveState := none
deriving DecidableEq, Repr

/-- The slice of store state the stocks module reads and writes. -/
structure StockState where
  stockValues : StockValues
  stockHawlMet : Bool
  currency : Option String := none
deriving DecidableEq, Repr

/-- The guard `Number.isFinite(v) ? v : 0` used inside the aggregation folds. -/
def finGuard (v : JSNum) : JSNum :=
  if v.isFinite then v else .fin 0

/-- getTotalStocks from the source: active holdings' market values (each
guarded by `Number.isFinite`), plus the passive `marketValue` and the dividend
earnings (each guarded by `|| 0`), rounded if the sum is finite and 0
otherwise. -/
def getTotalStocks (st : StockState) : ℚ :=
  let activeTotal := st.stockValues.activeStocks.foldl
    (fun sum stock => sum.add (finGuard stock.marketValue)) (JSNum.fin 0)
  let passiveTotal := optOrZero (st.stockValues.passiveInvestments.bind (·.marketValue))
  let dividendTotal := optOrZero st.stockValues.total_dividend_earnings
  match (activeTotal.add passiveTotal).add dividendTotal with
  | .fin q => roundCurrencyQ q
  | _ => 0

/-- getTotalZakatableStocks from the source: 0 whenever the hawl flag is
false, otherwise the analogous sum with the passive `zakatableValue`. -/
def getTotalZakatableStocks (st : StockState) : ℚ :=
  if !st.stockHawlMet then 0
  else
    let activeTotal := st.stockValues.activeStocks.foldl
      (fun sum stock => sum.add (finGuard stock.marketValue)) (JSNum.fin 0)
    let passiveZakatable := optOrZero (st.stockValues.passiveInvestments.bind (·.zakatableValue))
    let dividendTotal := optOrZero st.stockValues.total_dividend_earnings
    match (activeTotal.add passiveZakatable).add dividendTotal with
    | .fin q => roundCurrencyQ q
    | _ => 0

/-- The state update shared verbatim by both branches of addActiveStock:
case-insensitive symbol lookup via `findIndex`, an in-place update on a hit,
and the append of an entry with the canonical uppercase symbol on a miss. -/
def addStockToList (symbol : String) (shares price marketValue zakatDue : JSNum)
    (ts : String) (stocks : List ActiveStock) : List ActiveStock :=
  match stocks.findIdx? (fun s => s.symbol.toUpper == symbol.toUpper) with
  | some i =>
      match stocks[i]? with
      | some existing =>
          stocks.set i { existing with
            shares := shares
            currentPrice := price
            marketValue := marketValue
            zakatDue := zakatDue
            lastUpdated := ts }
      | none => stocks
  | none =>
      stocks ++ [{ symbol := symbol.toUpper
                   shares := shares
                   currentPrice := price
                   marketValue := marketValue
                   zakatDue := zakatDue
                   lastUpdated := ts }]

/-- Truthiness of the optional manual price, as tested by `if (!manualPrice)`. -/
def optTruthy (v : Option JSNum) : Bool :=
  match v with
  | some x => x.truthy
  | none => false

/-- addActiveStock from the source. Throws (here: `none`) on an empty symbol
or non-positive shares. A falsy manual price (missing, zero, or NaN) selects
the API branch, whose externally fetched price and timestamp are passed in as
`fetchedPrice`/`fetchedTs`; a truthy manual price is used directly with the
current wall-clock timestamp `nowIso`. Both branches then perform the same
list update with the resolved price. -/
def addActiveStock (fetchedPrice : JSNum) (fetchedTs nowIso : String)
    (symbol : String) (shares : JSNum) (manualPrice : Option JSNum)
    (st : StockState) : Option StockState :=
  if symbol = "" ∨ shares.leZero then none
  else
    let useManual := optTruthy manualPrice
    let price := if useManual then (jsOfOpt manualPrice) else fetchedPrice
    let ts := if useManual then nowIso else fetchedTs
    let marketValue := jsRoundCurrency (shares.mul price)
    let zakatDue := jsRoundCurrency (marketValue.mul (.fin ZAKAT_RATE))
    some { st with stockValues := { st.stockValues with
      activeStocks := addStockToList symbol shares price marketValue zakatDue ts
        st.stockValues.activeStocks } }

/-- updateActiveStock from the source: throws (here: `none`) when the fetched
price is not a finite number; otherwise re-prices the exact-match holding (if
any) and rebuilds the legacy aggregate fields from the active holdings alone,
gating the zakatable value on the hawl flag. -/
def updateActiveStock (fetchedPrice : JSNum) (fetchedTs : String)
    (symbol : String) (shares : JSNum) (st : StockState) : Option StockState :=
  if !fetchedPrice.isFinite then none
  else
    let marketValue := jsRoundCurrency (shares.mul fetchedPrice)
    let zakatDue := jsRoundCurrency (marketValue.mul (.fin ZAKAT_RATE))
    let updatedStocks := st.stockValues.activeStocks.map (fun stock =>
      if stock.symbol = symbol then
        { stock with
          shares := shares
          currentPrice := fetchedPrice
          marketValue := marketValue
          zakatDue := zakatDue
          lastUpdated := fetchedTs }
      else stock)
    let totalValue := updatedStocks.foldl
      (fun sum s => sum.add s.marketValue.orZero) (JSNum.fin 0)
    some { st with stockValues := { st.stockValues with
      activeStocks := updatedStocks
      market_value := totalValue
      zakatable_value := if st.stockHawlMet then totalValue else .fin 0 } }

/-- removeActiveStock from the source: filters by case-sensitive strict
inequality on the stored symbol. -/
def removeActiveStock (symbol : String) (st : StockState) : StockState :=
  { st with stockValues := { st.stockValues with
    activeStocks := st.stockValues.activeStocks.filter (fun s => s.symbol != symbol) } }

/-- One entry of the batch price source's response list. -/
structure PriceEntry where
  symbol : String
  price : JSNum
  currency : String
  sourceCurrency : Option String := none
  conversionApplied : Bool
  lastUpdated : String
deriving DecidableEq, Repr

/-- The ambient currency store's `convertAmount`; it may throw, modelled as
returning `none`. Arguments: amount, from-currency, to-currency. -/
def Converter : Type := JSNum → String → String → Option JSNum

/-- The per-holding step of the batch price refresh: find the response entry
by case-insensitive symbol match; on a miss keep the holding unchanged; on a
hit accept an API-side conversion, else attempt a client-side conversion
through the ambient converter (a throw or an unchanged value falls back to
the source's raw price under its own currency), and recompute the
valuation from the resolved price. -/
def updateOneStock (converter : Option Converter) (currentCurrency : String)
    (updatedPrices : List PriceEntry) (stock : ActiveStock) : ActiveStock :=
  match updatedPrices.find? (fun p => p.symbol.toUpper == stock.symbol.toUpper) with
  | none => stock
  | some updated =>
    if updated.conversionApplied && updated.currency == currentCurrency then
      let marketValue := jsRoundCurrency (stock.shares.mul updated.price)
      let zakatDue := jsRoundCurrency (marketValue.mul (.fin ZAKAT_RATE))
      { stock with
        currentPrice := updated.price
        marketValue := marketValue
        zakatDue := zakatDue
        lastUpdated := updated.lastUpdated
        currency := some updated.currency
        sourceCurrency := updated.sourceCurrency }
    else
      let attempt : Option JSNum :=
        match converter with
        | some convertAmount =>
          if updated.currency != currentCurrency then
            match convertAmount updated.price updated.currency currentCurrency with
            | some converted =>
                if JSNum.strictNe converted updated.price then some converted else none
            | none => none
          else none
        | none => none
      match attempt with
      | some convertedPrice =>
        let marketValue := jsRoundCurrency (stock.shares.mul convertedPrice)
        let zakatDue := jsRoundCurrency (marketValue.mul (.fin ZAKAT_RATE))
        { stock with
          currentPrice := convertedPrice
          marketValue := marketValue
          zakatDue := zakatDue
          lastUpdated := updated.lastUpdated
          currency := some currentCurrency
          sourceCurrency := some updated.currency }
      | none =>
        let marketValue := jsRoundCurrency (stock.shares.mul updated.price)
        let zakatDue := jsRoundCurrency (marketValue.mul (.fin ZAKAT_RATE))
        { stock with
          currentPrice := updated.price
          marketValue := marketValue
          zakatDue := zakatDue
          lastUpdated := updated.lastUpdated
          currency := some updated.currency
          sourceCurrency := updated.sourceCurrency }

/-- updateStockPrices from the source, on the success path of the batch fetch
(a hard fetch failure aborts before any state is written): a no-op with no
active holdings, otherwise one atomic write of the per-holding updates and
the resolved target currency. -/
def updateStockPrices (converter : Option Converter) (updatedPrices : List PriceEntry)
    (targetCurrency : Option String) (st : StockState) : StockState :=
  if st.stockValues.activeStocks.isEmpty then st
  else
    let currentCurrency := strOr targetCurrency (strOr st.currency "USD")
    { st with
      stockValues := { st.stockValues with
        activeStocks := st.stockValues.activeStocks.map
          (updateOneStock converter currentCurrency updatedPrices) }
      currency := some currentCurrency }

/-- One category entry of the stocks breakdown. Fields that the source can
leave as `undefined` (the raw passive values) are `Option JSNum`. -/
structure BreakdownItem where
  value : Option JSNum
  isZakatable : Bool
  zakatable : Option JSNum
  zakatDue : JSNum
  label : String
  tooltip : String
  percentage : JSNum
deriving DecidableEq, Repr

/-- Result of getStocksBreakdown; the record of items is kept as an ordered
association list. -/
structure StocksBreakdown where
  total : ℚ
  zakatable : ℚ
  zakatDue : ℚ
  items : List (String × BreakdownItem)
deriving DecidableEq, Repr

/-- The `active_trading` breakdown entry, present only with at least one
active holding. -/
def activeTradingItems (st : StockState) (total : ℚ) : List (String × BreakdownItem) :=
  if st.stockValues.activeStocks.length > 0 then
    let activeSum := st.stockValues.activeStocks.foldl
      (fun sum stock => sum.add (finGuard stock.marketValue)) (JSNum.fin 0)
    [("active_trading",
      { value := some activeSum
        isZakatable := st.stockHawlMet
        zakatable := some (if st.stockHawlMet then activeSum else .fin 0)
        zakatDue := if st.stockHawlMet
          then jsRoundCurrency (activeSum.mul (.fin ZAKAT_RATE)) else .fin 0
        label := "Active Trading"
        tooltip := "Full market value is zakatable"
        percentage := if 0 < total
          then jsRoundCurrency ((activeSum.div (.fin total)).mul (.fin 100))
          else .fin 0 })]
  else []

/-- The `passive_investments` breakdown entry, present only when a passive
investment block exists; reads the raw fields without numeric guards. -/
def passiveInvestmentItems (st : StockState) (total : ℚ) : List (String × BreakdownItem) :=
  match st.stockValues.passiveInvestments with
  | some p =>
    let passiveValue := p.marketValue
    let passiveZakatable := p.zakatableValue
    [("passive_investments",
      { value := passiveValue
        isZakatable := st.stockHawlMet
        zakatable := if st.stockHawlMet then passiveZakatable else some (.fin 0)
        zakatDue := if st.stockHawlMet
          then jsRoundCurrency ((jsOfOpt passiveZakatable).mul (.fin ZAKAT_RATE))
          else .fin 0
        label := if p.method = some "quick" then "Passive Investments (30% Rule)"
          else "Passive Investments (CRI Method)"
        tooltip := if p.method = some "quick" then "30% of market value is zakatable"
          else "Based on company financials"
        percentage := if 0 < total
          then jsRoundCurrency (((jsOfOpt passiveValue).div (.fin total)).mul (.fin 100))
          else .fin 0 })]
  | none => []

/-- The `dividends` breakdown entry, present only when the (defaulted)
dividend earnings are strictly positive. -/
def dividendItems (st : StockState) (total : ℚ) : List (String × BreakdownItem) :=
  let dividendValue := optOrZero st.stockValues.total_dividend_earnings
  if dividendValue.gtZero then
    [("dividends",
      { value := some dividendValue
        isZakatable := st.stockHawlMet
        zakatable := some (if st.stockHawlMet then dividendValue else .fin 0)
        zakatDue := if st.stockHawlMet
          then jsRoundCurrency (dividendValue.mul (.fin ZAKAT_RATE)) else .fin 0
        label := "Dividend Earnings"
        tooltip := "Full dividend amount is zakatable"
        percentage := if 0 < total
          then jsRoundCurrency ((dividendValue.div (.fin total)).mul (.fin 100))
          else .fin 0 })]
  else []

/-- The zero-valued placeholder entry emitted when no category applies. -/
def placeholderStocksItem : String × BreakdownItem :=
  ("stocks",
    { value := some (.fin 0)
      isZakatable := false
      zakatable := some (.fin 0)
      zakatDue := .fin 0
      label := "Stocks"
      tooltip := "No stocks added yet"
      percentage := .fin 0 })

/-- getStocksBreakdown from the source: the grand totals plus the per-category
record, with a placeholder when no category applies. -/
def getStocksBreakdown (st : StockState) : StocksBreakdown :=
  let total := getTotalStocks st
  let zakatable := getTotalZakatableStocks st
  let zakatDue := roundCurrencyQ (zakatable * ZAKAT_RATE)
  let items := activeTradingItems st total ++ passiveInvestmentItems st total
    ++ dividendItems st total
  let items := if items.isEmpty then [placeholderStocksItem] else items
  { total := total, zakatable := zakatable, zakatDue := zakatDue, items := items }

/-- A finite value, or the default 0 for a missing or non-finite one. -/
def finiteOrZeroJ : JSNum → ℚ
  | .fin q => q
  | _ => 0

/-- A present finite value, or the default 0 for a missing or non-finite one. -/
def finiteOrZero : Option JSNum → ℚ
  | some (.fin q) => q
  | _ => 0

/-- Modelled from the spec, for comparison with the implementation: the total
as the specification words it, where each summed term individually defaults
to 0 when it is missing or non-finite, and the sum is rounded to currency
precision. -/
def getTotalStocksSpec (st : StockState) : ℚ :=
  roundCurrencyQ
    ((st.stockValues.activeStocks.foldl
        (fun sum stock => sum + finiteOrZeroJ stock.marketValue) 0)
      + finiteOrZero (st.stockValues.passiveInvestments.bind (·.marketValue))
      + finiteOrZero st.stockValues.total_dividend_earnings)

/-- A number that is not one of the signed infinities. -/
def notInf : JSNum → Bool
  | .posInf => false
  | .negInf => false
  | _ => true

/-!
Concrete states used by the witness and counterexample theorems below.
-/

/-- A fixed clock value. -/
def nowZero : Now := { idStr := "0", iso := "1970-01-01T00:00:00.000Z" }

/-- A holding of 10 AAPL shares at 150. -/
def stockAAPL : ActiveStock :=
  { symbol := "AAPL"
    shares := .fin 10
    currentPrice := .fin 150
    marketValue := .fin 1500
    zakatDue := .fin 37
    lastUpdated := "t0" }

/-- A holding of 5 TSLA shares at 200. -/
def stockTSLA : ActiveStock :=
  { symbol := "TSLA"
    shares := .fin 5
    currentPrice := .fin 200
    marketValue := .fin 1000
    zakatDue := .fin 25
    lastUpdated := "t0" }

/-- A lower-case duplicate of the AAPL symbol with different data. -/
def stockAaplLower : ActiveStock :=
  { symbol := "aapl"
    shares := .fin 1
    currentPrice := .fin 150
    marketValue := .fin 150
    zakatDue := .fin 3
    lastUpdated := "t0" }

/-- A populated aggregate whose hawl flag is off. -/
def stHawlNotMet : StockState :=
  { stockValues :=
      { activeStocks := [stockAAPL]
        market_value := .fin 1500
        zakatable_value := .fin 0
        total_dividend_earnings := some (.fin 50)
        passiveInvestments := some { version := some "2.0"
                                     marketValue := some (.fin 300)
                                     zakatableValue := some (.fin 90) } }
    stockHawlMet := false }

/-- A persisted blob whose version field is the empty string. -/
def rawEmptyVersion : RawPassiveState := { version := some "" }

/-- A persisted blob with an unrecognized version tag. -/
def rawVersion3 : RawPassiveState := { version := some "3.0" }

/-- An unversioned persisted blob with an unrecognized method string. -/
def rawBogusMethod : RawPassiveState := { method := some "bogus" }

/-- A well-formed V1 blob using the quick method. -/
def rawQuickV1 : RawPassiveState :=
  { version := some "1.0"
    method := some "quick"
    marketValue := some (.fin 1000) }

/-- A V2 blob with an unrecognized method string. -/
def rawBogusV2 : RawPassiveState :=
  { version := some "2.0"
    method := some "bogus" }

/-- A V2 blob using the detailed method. -/
def rawDetailedV2 : RawPassiveState :=
  { version := some "2.0"
    method := some "detailed"
    marketValue := some (.fin 2000)
    zakatableValue := some (.fin 400) }

/-- An aggregate holding just AAPL, hawl met. -/
def stA : StockState :=
  { stockValues :=
      { activeStocks := [stockAAPL]
        market_value := .fin 1500
        zakatable_value := .fin 1500 }
    stockHawlMet := true }

/-- The AAPL holding after re-adding the symbol with 20 shares at 150. -/
def stockAAPLUpdated : ActiveStock :=
  { symbol := "AAPL"
    shares := .fin 20
    currentPrice := .fin 150
    marketValue := .fin 3000
    zakatDue := .fin 75
    lastUpdated := "t1" }

/-- The expected aggregate after re-adding AAPL (lower-case) to `stA`. -/
def stAAfter : StockState :=
  { stA with stockValues := { stA.stockValues with activeStocks := [stockAAPLUpdated] } }

/-- An aggregate whose passive market value is positive infinity while the
active holdings and dividends are finite. -/
def stInfPassive : StockState :=
  { stockValues :=
      { activeStocks := [stockAAPL]
        market_value := .fin 1500
        zakatable_value := .fin 0
        total_dividend_earnings := some (.fin 0)
        passiveInvestments := some { marketValue := some .posInf } }
    stockHawlMet := true }

/-- An aggregate whose passive market value is NaN while the active holdings
and dividends are finite. -/
def stNaNPassive : StockState :=
  { stockValues :=
      { activeStocks := [stockAAPL]
        market_value := .fin 1500
        zakatable_value := .fin 0
        total_dividend_earnings := some (.fin 50)
        passiveInvestments := some { marketValue := some .nan } }
    stockHawlMet := true }

/-- An aggregate holding just TSLA. -/
def stT : StockState :=
  { stockValues :=
      { activeStocks := [stockTSLA]
        market_value := .fin 1000
        zakatable_value := .fin 0 }
    stockHawlMet := true }

/-- A batch response entry for AAPL only. -/
def priceAAPL : PriceEntry :=
  { symbol := "AAPL"
    price := .fin 160
    currency := "USD"
    conversionApplied := false
    lastUpdated := "t2" }

/-- An aggregate with two holdings differing only in symbol case. -/
def stMixedCase : StockState :=
  { stockValues :=
      { activeStocks := [stockAAPL, stockAaplLower]
        market_value := .fin 0
        zakatable_value := .fin 0 }
    stockHawlMet := true }

/-- An aggregate whose legacy fields still mirror a passive amount (1500
active plus 300 passive). -/
def stWithMirroredPassive : StockState :=
  { stockValues :=
      { activeStocks := [stockAAPL]
        market_value := .fin 1800
        zakatable_value := .fin 1800
        passiveInvestments := some { marketValue := some (.fin 300)
                                     zakatableValue := some (.fin 90) } }
    stockHawlMet := true }

/-!
Theorems about the claims.
-/

/-- C1: for every aggregate state in which the hawl flag is false,
getTotalZakatableStocks returns exactly 0, regardless of the active holdings'
market values, the passive zakatable value and the dividend earnings. -/
theorem getTotalZakatableStocks_eq_zero_of_hawl_not_met (st : StockState)
    (h : st.stockHawlMet = false) : getTotalZakatableStocks st = 0 := by
  simp [getTotalZakatableStocks, h]

/-- Witness for C1 at a populated concrete state: holdings worth 1500, a
passive zakatable value of 90 and dividends of 50, yet the total is 0. -/
theorem getTotalZakatableStocks_eq_zero_of_hawl_not_met_witness :
    stHawlNotMet.stockHawlMet = false ∧ getTotalZakatableStocks stHawlNotMet = 0 :=
  ⟨rfl, getTotalZakatableStocks_eq_zero_of_hawl_not_met stHawlNotMet rfl⟩

/-- C2 counterexample: the input whose version field is the empty string has a
version outside the set containing undefined, "1.0" and "2.0", yet migration
returns a state rather than undefined, because the falsy version check routes
the empty string to the unversioned branch. -/
theorem migrate_emptyVersion_returns_state :
    migratePassiveInvestments nowZero (some rawEmptyVersion) ≠ none
    ∧ rawEmptyVersion.version ≠ none
    ∧ rawEmptyVersion.version ≠ some "1.0"
    ∧ rawEmptyVersion.version ≠ some "2.0" := by
  refine ⟨?_, by decide, by decide, by decide⟩
  decide

/-- C2 (amended): migration is a total function (so it never throws), and for
every input whose version field is a truthy string outside the recognized tags
"1.0" and "2.0" it returns undefined; a falsy version field (missing or the
empty string) is instead treated as unversioned and migrated to defaults. -/
theorem migrate_none_of_unrecognized_version (now : Now) (s : RawPassiveState)
    (v : String) (hv : s.version = some v)
    (h0 : v ≠ "") (h1 : v ≠ "1.0") (h2 : v ≠ "2.0") :
    migratePassiveInvestments now (some s) = none := by
  simp [migratePassiveInvestments, hv, h0, h1, h2]

/-- Witness for the amended C2 at the unrecognized tag "3.0". -/
theorem migrate_none_of_unrecognized_version_witness :
    rawVersion3.version = some "3.0"
    ∧ migratePassiveInvestments nowZero (some rawVersion3) = none :=
  ⟨rfl, migrate_none_of_unrecognized_version nowZero rawVersion3 "3.0" rfl
      (by decide) (by decide) (by decide)⟩

/-- A defaulted string fallback is nonempty whenever its default is. -/
theorem strOr_ne_empty (o : Option String) (d : String) (hd : d ≠ "") :
    strOr o d ≠ "" := by
  cases o with
  | none => simpa [strOr] using hd
  | some s =>
    by_cases hs : s = "" <;> simp [strOr, hs, hd]

/-- Every successful migration result is produced by one of the three
branches. -/
theorem migrate_some_branches (now : Now) (s : RawPassiveState)
    (y : PassiveInvestmentState)
    (h : migratePassiveInvestments now (some s) = some y) :
    y = migrateUnversioned now s ∨ y = migrateV1 now s ∨ y = migrateV2 now s := by
  rcases hv : s.version with _ | v
  · left
    simp [migratePassiveInvestments, hv] at h
    exact h.symm
  · by_cases h0 : v = ""
    · left
      simp [migratePassiveInvestments, hv, h0] at h
      exact h.symm
    · by_cases h1 : v = "1.0"
      · right; left
        simp [migratePassiveInvestments, hv, h0, h1] at h
        exact h.symm
      · by_cases h2 : v = "2.0"
        · right; right
          simp [migratePassiveInvestments, hv, h0, h1, h2] at h
          exact h.symm
        · simp [migratePassiveInvestments, hv, h0, h1, h2] at h

/-- Re-migrating a canonical state whose method is recognized, whose display
labels are the ones derived from that method, and whose start date is
nonempty reproduces the state exactly. -/
theorem migrateV2_toRaw_eq (now2 : Now) (y : PassiveInvestmentState)
    (hver : y.version = "2.0")
    (hm : y.method = "quick" ∨ y.method = "detailed")
    (hlm : y.displayProperties.method = methodLabel (some y.method))
    (hlt : y.displayProperties.totalLabel = totalLabelOf (some y.method))
    (hsd : y.hawlStatus.startDate ≠ "") :
    migratePassiveInvestments now2 (some y.toRaw) = some y := by
  obtain ⟨ver, inv, m, mv, zv, cd, ⟨hc, sd, ed⟩, ⟨cur, dm, tl⟩⟩ := y
  simp only at hver hlm hlt hsd
  subst hver
  rcases hm with hm | hm <;> simp only at hm <;> subst hm <;>
    simp_all [migratePassiveInvestments, PassiveInvestmentState.toRaw, migrateV2,
      sanitizeMethod, methodLabel, totalLabelOf, strOr]

/-- C3 counterexample: on an input with an unrecognized method string,
migration is not idempotent: the first pass defaults the method to "quick"
while deriving the CRI labels from the raw method, and the second pass then
rewrites the labels to the 30-percent-rule ones, so re-migrating the output
changes it. -/
theorem migrate_not_idempotent_on_invalid_method :
    (migratePassiveInvestments nowZero (some rawBogusMethod)).bind
        (fun y => migratePassiveInvestments nowZero (some y.toRaw))
      ≠ migratePassiveInvestments nowZero (some rawBogusMethod) := by
  decide

/-- C3 (amended): for every input whose method field is exactly "quick" or
"detailed" (and a nonempty migration timestamp), migration is idempotent:
re-migrating the output reproduces it, under any later timestamp. For inputs
with a missing or invalid method the output pairs the defaulted method
"quick" with the CRI labels and re-migration rewrites those labels, so
idempotence fails there. -/
theorem migrate_idempotent_of_valid_method (now now2 : Now) (s : RawPassiveState)
    (y : PassiveInvestmentState)
    (hm : s.method = some "quick" ∨ s.method = some "detailed")
    (hiso : now.iso ≠ "")
    (h : migratePassiveInvestments now (some s) = some y) :
    migratePassiveInvestments now2 (some y.toRaw) = some y := by
  have hy := migrate_some_branches now s y h
  rcases hy with hy | hy | hy <;> rcases hm with hm | hm <;> subst hy <;>
    refine migrateV2_toRaw_eq now2 _ rfl ?_ ?_ ?_ ?_ <;>
      simp [migrateUnversioned, migrateV1, migrateV2, sanitizeMethod, methodLabel,
        totalLabelOf, hm, hiso, strOr_ne_empty _ now.iso hiso]

/-- Witness for the amended C3: re-migrating the migrated well-formed V1 quick
state reproduces it. -/
theorem migrate_idempotent_of_valid_method_witness :
    migratePassiveInvestments nowZero (some (migrateV1 nowZero rawQuickV1).toRaw)
      = some (migrateV1 nowZero rawQuickV1) :=
  migrate_idempotent_of_valid_method nowZero nowZero rawQuickV1 _
    (Or.inl rfl) (by decide) rfl

/-- C4 counterexample: for a V2 input whose raw method is the unrecognized
string "bogus", the output's sanitized method is "quick" while its display
labels are the CRI ones, not the 30-percent-rule labels the claim requires
for a "quick" output. -/
theorem migrate_invalid_method_label_mismatch :
    (migratePassiveInvestments nowZero (some rawBogusV2)).map
        (fun y => (y.method, y.displayProperties.method, y.displayProperties.totalLabel))
      = some ("quick", "CRI Method", "Total Company Assets")
    ∧ ("CRI Method", "Total Company Assets") ≠ ("30% Rule", "Total Investments") := by
  refine ⟨by decide, by decide⟩

/-- C4 (amended): the output's display labels are a deterministic function of
the raw input's method field, not of the sanitized output method: they are
the 30-percent-rule labels exactly when the raw method equals "quick" and the
CRI labels otherwise. When the raw method is a recognized value the labels
therefore agree with the sanitized method as the claim stated; when an
invalid raw method is defaulted to "quick" they do not. -/
theorem migrate_labels_function_of_raw_method (now : Now) (s : RawPassiveState)
    (y : PassiveInvestmentState)
    (h : migratePassiveInvestments now (some s) = some y) :
    (y.displayProperties.method = methodLabel s.method
      ∧ y.displayProperties.totalLabel = totalLabelOf s.method)
    ∧ ((s.method = some "quick" ∨ s.method = some "detailed") →
        ((y.method = "quick" →
            y.displayProperties.method = "30% Rule"
            ∧ y.displayProperties.totalLabel = "Total Investments")
          ∧ (y.method = "detailed" →
            y.displayProperties.method = "CRI Method"
            ∧ y.displayProperties.totalLabel = "Total Company Assets"))) := by
  have hy := migrate_some_branches now s y h
  constructor
  · rcases hy with hy | hy | hy <;> subst hy <;> exact ⟨rfl, rfl⟩
  · intro hm
    rcases hy with hy | hy | hy <;> rcases hm with hm | hm <;> subst hy <;>
      simp [migrateUnversioned, migrateV1, migrateV2, sanitizeMethod,
        methodLabel, totalLabelOf, hm]

/-- Witness for the amended C4: the detailed V2 input migrates to the CRI
labels. -/
theorem migrate_labels_function_of_raw_method_witness :
    (migrateV2 nowZero rawDetailedV2).displayProperties.method = "CRI Method"
    ∧ (migrateV2 nowZero rawDetailedV2).displayProperties.totalLabel
      = "Total Company Assets" := by
  have h := migrate_labels_function_of_raw_method nowZero rawDetailedV2
    (migrateV2 nowZero rawDetailedV2) rfl
  exact ⟨h.1.1.trans (by decide), h.1.2.trans (by decide)⟩

/-- Bridge between the executable rational floor and the mathematical one. -/
theorem rat_floor_eq (q : ℚ) : (q.floor : ℤ) = ⌊q⌋ := by
  rw [Rat.floor_def', Rat.floor_def]

/-- Evaluation rule for roundCurrencyQ via a bracketing of the scaled value. -/
theorem roundCurrencyQ_eq (q : ℚ) (z : ℤ)
    (h1 : (z : ℚ) ≤ q * 100 + 1 / 2) (h2 : q * 100 + 1 / 2 < z + 1) :
    roundCurrencyQ q = (z : ℚ) / 100 := by
  unfold roundCurrencyQ
  rw [rat_floor_eq, Int.floor_eq_iff.mpr ⟨h1, h2⟩]

/-- The finiteness guard collapses every number onto its defaulted rational. -/
theorem finGuard_eq (v : JSNum) : finGuard v = .fin (finiteOrZeroJ v) := by
  cases v <;> rfl

/-- A finite value survives the idiom `v || 0` unchanged. -/
theorem orZero_fin (q : ℚ) : (JSNum.fin q).orZero = .fin q := by
  by_cases h : q = 0 <;> simp [JSNum.orZero, JSNum.truthy, h]

/-- The guarded active-holdings fold always stays finite and computes the
rational fold of the defaulted market values. -/
theorem foldl_add_finGuard (l : List ActiveStock) (a : ℚ) :
    l.foldl (fun sum stock => sum.add (finGuard stock.marketValue)) (JSNum.fin a)
      = .fin (l.foldl (fun sum stock => sum + finiteOrZeroJ stock.marketValue) a) := by
  induction l generalizing a with
  | nil => rfl
  | cons x xs ih =>
    rw [List.foldl_cons, List.foldl_cons]
    have h1 : (JSNum.fin a).add (finGuard x.marketValue)
        = JSNum.fin (a + finiteOrZeroJ x.marketValue) := by
      rw [finGuard_eq]
      rfl
    rw [h1, ih]

/-- An optional term that is not a signed infinity contributes exactly its
defaulted finite value under the idiom `x || 0`. -/
theorem optOrZero_eq_fin (o : Option JSNum) (h : o.all notInf = true) :
    optOrZero o = .fin (finiteOrZero o) := by
  match o with
  | none => rfl
  | some v =>
    cases v with
    | fin q => simp [optOrZero, orZero_fin, finiteOrZero]
    | nan => rfl
    | posInf => simp [Option.all, notInf] at h
    | negInf => simp [Option.all, notInf] at h

/-- C6 counterexample: with a passive market value of positive infinity, a
finite active total of 1500 and zero dividends, the implementation returns 0,
while the claimed per-term defaulting would return 1500: the non-finite
passive term is not defaulted to 0 but poisons the whole sum, whose final
finiteness guard then discards the finite terms too. -/
theorem getTotalStocks_drops_finite_terms_on_infinite_passive :
    getTotalStocks stInfPassive = 0
    ∧ getTotalStocksSpec stInfPassive = 1500
    ∧ (0 : ℚ) ≠ 1500 := by
  refine ⟨by rfl, ?_, by norm_num⟩
  have h : getTotalStocksSpec stInfPassive = roundCurrencyQ 1500 := by
    norm_num [getTotalStocksSpec, stInfPassive, stockAAPL, finiteOrZeroJ, finiteOrZero]
  rw [h, roundCurrencyQ_eq 1500 150000 (by norm_num) (by norm_num)]
  norm_num

/-- C6 (amended): getTotalStocks returns the currency-rounded sum of the
active holdings' individually finite-guarded market values, the passive
market value and the dividend earnings, the latter two defaulting to 0 when
missing or NaN, provided neither of them is a signed infinity. (An infinite
passive or dividend term instead propagates into the sum and the final
finiteness guard collapses the whole result to 0.) -/
theorem getTotalStocks_eq_spec_of_no_infinite_term (st : StockState)
    (hp : (st.stockValues.passiveInvestments.bind (·.marketValue)).all notInf = true)
    (hd : (st.stockValues.total_dividend_earnings).all notInf = true) :
    getTotalStocks st = getTotalStocksSpec st := by
  unfold getTotalStocks getTotalStocksSpec
  rw [foldl_add_finGuard, optOrZero_eq_fin _ hp, optOrZero_eq_fin _ hd]
  simp [JSNum.add]

/-- Witness for the amended C6: a NaN passive market value contributes 0
while the finite active total of 1500 and dividends of 50 are kept. -/
theorem getTotalStocks_eq_spec_of_no_infinite_term_witness :
    getTotalStocks stNaNPassive = getTotalStocksSpec stNaNPassive
    ∧ getTotalStocksSpec stNaNPassive = 1550 := by
  refine ⟨getTotalStocks_eq_spec_of_no_infinite_term stNaNPassive (by rfl) (by rfl), ?_⟩
  have h : getTotalStocksSpec stNaNPassive = roundCurrencyQ 1550 := by
    norm_num [getTotalStocksSpec, stNaNPassive, stockAAPL, finiteOrZeroJ, finiteOrZero]
  rw [h, roundCurrencyQ_eq 1550 155000 (by norm_num) (by norm_num)]
  norm_num

/-- String uppercasing (the model of `toUpperCase`) acts charwise on the
underlying character data. -/
theorem toUpper_data (s : String) : s.toUpper = ⟨s.data.map Char.toUpper⟩ :=
  String.map_eq Char.toUpper s

/-- A character outside the lower-case latin range is fixed by uppercasing. -/
theorem charToUpper_of_not_lower (c : Char) (h : ¬(c.toNat ≥ 97 ∧ c.toNat ≤ 122)) :
    c.toUpper = c := by
  show (if c.toNat ≥ 97 ∧ c.toNat ≤ 122 then Char.ofNat (c.toNat - 32) else c) = c
  rw [if_neg h]

/-- Uppercasing a lower-case latin character lands 32 code points lower. -/
theorem charToNat_toUpper_of_lower (c : Char) (h : c.toNat ≥ 97 ∧ c.toNat ≤ 122) :
    c.toUpper.toNat = c.toNat - 32 := by
  show (if c.toNat ≥ 97 ∧ c.toNat ≤ 122 then Char.ofNat (c.toNat - 32) else c).toNat
      = c.toNat - 32
  rw [if_pos h]
  have hv : (c.toNat - 32).isValidChar := Or.inl (by omega)
  unfold Char.ofNat
  rw [dif_pos hv]
  rfl

/-- Character uppercasing is idempotent. -/
theorem charToUpper_idem (c : Char) : c.toUpper.toUpper = c.toUpper := by
  by_cases h : c.toNat ≥ 97 ∧ c.toNat ≤ 122
  · have ht := charToNat_toUpper_of_lower c h
    exact charToUpper_of_not_lower _ (by omega)
  · rw [charToUpper_of_not_lower c h, charToUpper_of_not_lower c h]

/-- String uppercasing is idempotent, so the canonical symbol of a stored
holding is a fixed point of canonicalization. -/
theorem toUpper_idem (s : String) : s.toUpper.toUpper = s.toUpper := by
  simp only [toUpper_data, List.map_map]
  exact congrArg String.mk (List.map_congr_left fun c _ => charToUpper_idem c)

/-- Evaluation of uppercasing at the sample symbol "aapl". -/
theorem up_aapl : "aapl".toUpper = "AAPL" := by
  rw [toUpper_data]
  decide

/-- Evaluation of uppercasing at the sample symbol "AAPL". -/
theorem up_AAPL : "AAPL".toUpper = "AAPL" := by
  rw [toUpper_data]
  decide

/-- Evaluation of uppercasing at the sample symbol "TSLA". -/
theorem up_TSLA : "TSLA".toUpper = "TSLA" := by
  rw [toUpper_data]
  decide

/-- Writing back the entry a list already holds at an index is a no-op. -/
theorem list_set_self_eq {α : Type} (l : List α) (i : Nat) (hi : i < l.length) :
    l.set i l[i] = l := by
  apply List.ext_getElem (by simp)
  intro j h1 h2
  rw [List.getElem_set]
  split
  · next he => subst he; rfl
  · rfl

/-- A holding with no case-insensitive match in the response list passes
through the per-holding refresh step unchanged. -/
theorem updateOneStock_eq_self_of_no_match (converter : Option Converter)
    (cur : String) (prices : List PriceEntry) (stock : ActiveStock)
    (hnm : ∀ p ∈ prices, p.symbol.toUpper ≠ stock.symbol.toUpper) :
    updateOneStock converter cur prices stock = stock := by
  have hfind : prices.find? (fun p => p.symbol.toUpper == stock.symbol.toUpper) = none := by
    rw [List.find?_eq_none]
    intro p hp
    simpa using hnm p hp
  unfold updateOneStock
  rw [hfind]

/-- C7: during a batch price refresh, every holding whose symbol has no
case-insensitive match in the price source's response list is left completely
unchanged: the holding at its position after the refresh equals the holding
before it, in every field. -/
theorem updateStockPrices_keeps_unmatched_holding (converter : Option Converter)
    (prices : List PriceEntry) (tc : Option String) (st : StockState)
    (i : Nat) (hi : i < st.stockValues.activeStocks.length)
    (hnm : ∀ p ∈ prices,
      p.symbol.toUpper ≠ (st.stockValues.activeStocks[i]).symbol.toUpper) :
    (updateStockPrices converter prices tc st).stockValues.activeStocks.length
        = st.stockValues.activeStocks.length
    ∧ ∀ hi' : i < (updateStockPrices converter prices tc st).stockValues.activeStocks.length,
        (updateStockPrices converter prices tc st).stockValues.activeStocks[i]
          = st.stockValues.activeStocks[i] := by
  have hone := updateOneStock_eq_self_of_no_match converter
    (strOr tc (strOr st.currency "USD")) prices (st.stockValues.activeStocks[i]) hnm
  unfold updateStockPrices
  by_cases he : st.stockValues.activeStocks.isEmpty
  · rw [if_pos he]
    exact ⟨rfl, fun _ => rfl⟩
  · rw [if_neg he]
    refine ⟨by simp, fun hi' => ?_⟩
    simpa [List.getElem_map] using hone

/-- C9: removeActiveStock removes exactly the holdings whose stored symbol
equals the argument by case-sensitive string equality: every exact match is
removed, every other holding is kept (with its multiplicity) in order, and in
particular a holding differing from the argument only in letter case is
retained. -/
theorem removeActiveStock_exact_case_sensitive (symbol : String) (st : StockState) :
    ((removeActiveStock symbol st).stockValues.activeStocks).Sublist
        st.stockValues.activeStocks
    ∧ (∀ s : ActiveStock,
        (removeActiveStock symbol st).stockValues.activeStocks.count s
          = if s.symbol = symbol then 0 else st.stockValues.activeStocks.count s)
    ∧ (∀ s ∈ st.stockValues.activeStocks,
        s.symbol.toUpper = symbol.toUpper → s.symbol ≠ symbol →
          s ∈ (removeActiveStock symbol st).stockValues.activeStocks) := by
  have hact : (removeActiveStock symbol st).stockValues.activeStocks
      = st.stockValues.activeStocks.filter (fun s => s.symbol != symbol) := rfl
  rw [hact]
  refine ⟨List.filter_sublist _, fun s => ?_, fun s hmem hup hne => ?_⟩
  · by_cases hs : s.symbol = symbol
    · rw [if_pos hs]
      rw [List.count_eq_zero]
      intro hmem
      rw [List.mem_filter] at hmem
      simp [hs] at hmem
    · rw [if_neg hs]
      exact List.count_filter (by simp [hs])
  · rw [List.mem_filter]
    exact ⟨hmem, by simp [hne]⟩

/-- C10: calling updateActiveStock with a symbol that matches no holding
case-sensitively, and a finite fetched price, succeeds, leaves every holding
unchanged, and still overwrites the legacy aggregate fields with sums over
the active holdings alone (zakatable gated on the hawl flag), discarding any
passive amounts previously mirrored there. -/
theorem updateActiveStock_no_match_rebuilds_legacy (fp : JSNum) (fts symbol : String)
    (shares : JSNum) (st : StockState)
    (hfin : fp.isFinite = true)
    (hnm : ∀ s ∈ st.stockValues.activeStocks, s.symbol ≠ symbol) :
    ∃ st', updateActiveStock fp fts symbol shares st = some st'
      ∧ st'.stockValues.activeStocks = st.stockValues.activeStocks
      ∧ st'.stockValues.market_value = st.stockValues.activeStocks.foldl
          (fun sum s => sum.add s.marketValue.orZero) (JSNum.fin 0)
      ∧ st'.stockValues.zakatable_value = (if st.stockHawlMet
          then st.stockValues.activeStocks.foldl
            (fun sum s => sum.add s.marketValue.orZero) (JSNum.fin 0)
          else JSNum.fin 0)
      ∧ st'.stockValues.passiveInvestments = st.stockValues.passiveInvestments := by
  have hmap : st.stockValues.activeStocks.map (fun stock =>
      if stock.symbol = symbol then
        { stock with
          shares := shares
          currentPrice := fp
          marketValue := jsRoundCurrency (shares.mul fp)
          zakatDue := jsRoundCurrency ((jsRoundCurrency (shares.mul fp)).mul (.fin ZAKAT_RATE))
          lastUpdated := fts }
      else stock) = st.stockValues.activeStocks := by
    rw [List.map_congr_left (g := fun a => a), List.map_id']
    intro s hs
    rw [if_neg (hnm s hs)]
  have hgoal : updateActiveStock fp fts symbol shares st
      = some { st with stockValues := { st.stockValues with
          market_value := st.stockValues.activeStocks.foldl
            (fun sum s => sum.add s.marketValue.orZero) (JSNum.fin 0)
          zakatable_value := if st.stockHawlMet
            then st.stockValues.activeStocks.foldl
              (fun sum s => sum.add s.marketValue.orZero) (JSNum.fin 0)
            else JSNum.fin 0 } } := by
    unfold updateActiveStock
    simp only [hfin, Bool.not_true, Bool.false_eq_true, if_false, hmap]
  exact ⟨_, hgoal, rfl, rfl, rfl, rfl⟩

/-- Witness for C7: a refresh whose response only contains AAPL leaves the
TSLA holding untouched. -/
theorem updateStockPrices_keeps_unmatched_holding_witness :
    (updateStockPrices none [priceAAPL] none stT).stockValues.activeStocks.length
        = stT.stockValues.activeStocks.length
    ∧ ∀ _ : 0 < (updateStockPrices none [priceAAPL] none stT).stockValues.activeStocks.length,
        (updateStockPrices none [priceAAPL] none stT).stockValues.activeStocks[0]
          = stT.stockValues.activeStocks[0] :=
  updateStockPrices_keeps_unmatched_holding none [priceAAPL] none stT 0 (by decide)
    (by
      intro p hp
      simp only [List.mem_singleton] at hp
      subst hp
      show "AAPL".toUpper ≠ "TSLA".toUpper
      rw [up_AAPL, up_TSLA]
      decide)

/-- Witness for C9: removing "AAPL" from a list holding both "AAPL" and
"aapl" keeps the lower-case holding and deletes the exact match. -/
theorem removeActiveStock_exact_case_sensitive_witness :
    stockAaplLower ∈ (removeActiveStock "AAPL" stMixedCase).stockValues.activeStocks
    ∧ (removeActiveStock "AAPL" stMixedCase).stockValues.activeStocks.count stockAAPL
      = 0 := by
  have h := removeActiveStock_exact_case_sensitive "AAPL" stMixedCase
  refine ⟨h.2.2 stockAaplLower (by decide) ?_ (by decide), ?_⟩
  · show "aapl".toUpper = "AAPL".toUpper
    rw [up_aapl, up_AAPL]
  · have hc := h.2.1 stockAAPL
    rw [if_pos (show stockAAPL.symbol = "AAPL" from rfl)] at hc
    exact hc

/-- Witness for C10: updating the absent symbol "MSFT" succeeds, keeps the
single AAPL holding, and rebuilds the legacy fields from the active holdings
alone, dropping the previously mirrored passive amount. -/
theorem updateActiveStock_no_match_rebuilds_legacy_witness :
    ∃ st', updateActiveStock (.fin 100) "t3" "MSFT" (.fin 2) stWithMirroredPassive
        = some st'
      ∧ st'.stockValues.activeStocks = stWithMirroredPassive.stockValues.activeStocks
      ∧ st'.stockValues.market_value
        = stWithMirroredPassive.stockValues.activeStocks.foldl
            (fun sum s => sum.add s.marketValue.orZero) (JSNum.fin 0)
      ∧ st'.stockValues.zakatable_value = (if stWithMirroredPassive.stockHawlMet
          then stWithMirroredPassive.stockValues.activeStocks.foldl
            (fun sum s => sum.add s.marketValue.orZero) (JSNum.fin 0)
          else JSNum.fin 0)
      ∧ st'.stockValues.passiveInvestments
        = stWithMirroredPassive.stockValues.passiveInvestments :=
  updateActiveStock_no_match_rebuilds_legacy (.fin 100) "t3" "MSFT" (.fin 2)
    stWithMirroredPassive rfl (by decide)

/-- Updating an entry in place without changing its symbol leaves the list of
canonical symbols untouched. -/
theorem map_toUpper_set (stocks : List ActiveStock) (j : Nat) (e : ActiveStock)
    (hj : j < stocks.length)
    (hkey : e.symbol.toUpper = stocks[j].symbol.toUpper) :
    (stocks.set j e).map (fun s => s.symbol.toUpper)
      = stocks.map (fun s => s.symbol.toUpper) := by
  apply List.ext_getElem (by simp)
  intro k h1 h2
  simp only [List.getElem_map, List.getElem_set]
  split
  · next hjk => subst hjk; simpa using hkey
  · rfl

/-- On a miss of the case-insensitive lookup, the shared add/update step of
addActiveStock appends exactly one holding carrying the canonical uppercase
symbol. -/
theorem addStockToList_no_match (symbol : String) (shares price mv zd : JSNum)
    (ts : String) (stocks : List ActiveStock)
    (h : ∀ s ∈ stocks, s.symbol.toUpper ≠ symbol.toUpper) :
    addStockToList symbol shares price mv zd ts stocks
      = stocks ++ [{ symbol := symbol.toUpper
                     shares := shares
                     currentPrice := price
                     marketValue := mv
                     zakatDue := zd
                     lastUpdated := ts }] := by
  unfold addStockToList
  have hf : stocks.findIdx? (fun s => s.symbol.toUpper == symbol.toUpper) = none := by
    rw [List.findIdx?_eq_none_iff]
    intro s hs
    simpa using h s hs
  rw [hf]

/-- On a hit of the case-insensitive lookup, the shared add/update step of
addActiveStock updates the found holding in place: shares, price, valuation
and timestamp are replaced, symbol and currency stamps are kept. -/
theorem addStockToList_match (symbol : String) (shares price mv zd : JSNum)
    (ts : String) (stocks : List ActiveStock) (i : Nat)
    (hfi : stocks.findIdx? (fun s => s.symbol.toUpper == symbol.toUpper) = some i) :
    ∃ hi : i < stocks.length,
      addStockToList symbol shares price mv zd ts stocks
        = stocks.set i { symbol := stocks[i].symbol
                         shares := shares
                         currentPrice := price
                         marketValue := mv
                         zakatDue := zd
                         lastUpdated := ts
                         currency := stocks[i].currency
                         sourceCurrency := stocks[i].sourceCurrency } := by
  obtain ⟨hi, hp, hmin⟩ := List.findIdx?_eq_some_iff_getElem.mp hfi
  refine ⟨hi, ?_⟩
  unfold addStockToList
  simp only [hfi, List.getElem?_eq_getElem hi]

/-- A successful addActiveStock writes back the shared list update, for some
resolved price and timestamp, with the valuation recomputed from them. -/
theorem addActiveStock_some (fp : JSNum) (fts niso symbol : String)
    (shares : JSNum) (mp : Option JSNum) (st st' : StockState)
    (h : addActiveStock fp fts niso symbol shares mp st = some st') :
    ∃ price ts,
      st'.stockValues.activeStocks
        = addStockToList symbol shares price
            (jsRoundCurrency (shares.mul price))
            (jsRoundCurrency ((jsRoundCurrency (shares.mul price)).mul (.fin ZAKAT_RATE)))
            ts st.stockValues.activeStocks := by
  unfold addActiveStock at h
  by_cases hg : symbol = "" ∨ shares.leZero = true
  · rw [if_pos hg] at h
    cases h
  · rw [if_neg hg] at h
    exact ⟨_, _, congrArg (fun x => x.stockValues.activeStocks) (Option.some.inj h).symm⟩

/-- C5: a successful addActiveStock preserves symbol uniqueness. If the
uppercased symbols were pairwise distinct before the call they still are
afterwards; a case-insensitive match updates exactly the matched holding in
place (length unchanged, symbol kept, shares, price, valuation and timestamp
replaced, every other holding untouched), and with no match exactly one new
holding carrying the uppercased symbol is appended. -/
theorem addActiveStock_unique_symbols (fp : JSNum) (fts niso symbol : String)
    (shares : JSNum) (mp : Option JSNum) (st st' : StockState)
    (hnd : (st.stockValues.activeStocks.map (fun s => s.symbol.toUpper)).Nodup)
    (h : addActiveStock fp fts niso symbol shares mp st = some st') :
    ((st'.stockValues.activeStocks.map (fun s => s.symbol.toUpper)).Nodup)
    ∧ ((∃ s ∈ st.stockValues.activeStocks, s.symbol.toUpper = symbol.toUpper) →
        st'.stockValues.activeStocks.length = st.stockValues.activeStocks.length
        ∧ ∀ (i : Nat) (s : ActiveStock), st.stockValues.activeStocks[i]? = some s →
            (s.symbol.toUpper ≠ symbol.toUpper →
              st'.stockValues.activeStocks[i]? = some s)
            ∧ (s.symbol.toUpper = symbol.toUpper →
              ∃ price ts, st'.stockValues.activeStocks[i]?
                = some { symbol := s.symbol
                         shares := shares
                         currentPrice := price
                         marketValue := jsRoundCurrency (shares.mul price)
                         zakatDue := jsRoundCurrency
                           ((jsRoundCurrency (shares.mul price)).mul (.fin ZAKAT_RATE))
                         lastUpdated := ts
                         currency := s.currency
                         sourceCurrency := s.sourceCurrency }))
    ∧ ((∀ s ∈ st.stockValues.activeStocks, s.symbol.toUpper ≠ symbol.toUpper) →
        ∃ price ts, st'.stockValues.activeStocks
          = st.stockValues.activeStocks
            ++ [{ symbol := symbol.toUpper
                  shares := shares
                  currentPrice := price
                  marketValue := jsRoundCurrency (shares.mul price)
                  zakatDue := jsRoundCurrency
                    ((jsRoundCurrency (shares.mul price)).mul (.fin ZAKAT_RATE))
                  lastUpdated := ts }]) := by
  obtain ⟨price, ts, hs'⟩ := addActiveStock_some fp fts niso symbol shares mp st st' h
  by_cases hex : ∃ s ∈ st.stockValues.activeStocks, s.symbol.toUpper = symbol.toUpper
  · obtain ⟨s0, hs0, he0⟩ := hex
    obtain ⟨j0, hfi⟩ : ∃ j, st.stockValues.activeStocks.findIdx?
        (fun s => s.symbol.toUpper == symbol.toUpper) = some j :=
      ⟨_, List.findIdx?_eq_some_of_exists ⟨s0, hs0, by simpa using he0⟩⟩
    obtain ⟨hj0, hset⟩ := addStockToList_match symbol shares price _ _ ts _ _ hfi
    rw [hset] at hs'
    obtain ⟨hj0', hp0, hmin⟩ := List.findIdx?_eq_some_iff_getElem.mp hfi
    have hkey : st.stockValues.activeStocks[j0].symbol.toUpper = symbol.toUpper := by
      simpa using hp0
    refine ⟨?_, fun _ => ⟨?_, ?_⟩, fun hall => absurd he0 (hall s0 hs0)⟩
    · rw [hs']
      rw [map_toUpper_set st.stockValues.activeStocks j0
        { symbol := st.stockValues.activeStocks[j0].symbol
          shares := shares
          currentPrice := price
          marketValue := jsRoundCurrency (shares.mul price)
          zakatDue := jsRoundCurrency
            ((jsRoundCurrency (shares.mul price)).mul (.fin ZAKAT_RATE))
          lastUpdated := ts
          currency := st.stockValues.activeStocks[j0].currency
          sourceCurrency := st.stockValues.activeStocks[j0].sourceCurrency }
        hj0 rfl]
      exact hnd
    · rw [hs']
      simp
    · intro i s hsi
      have hilen : i < st.stockValues.activeStocks.length := by
        by_contra hge
        rw [List.getElem?_eq_none (by omega)] at hsi
        cases hsi
      have hsi' : st.stockValues.activeStocks[i] = s := by
        rw [List.getElem?_eq_getElem hilen] at hsi
        exact Option.some.inj hsi
      constructor
      · intro hne
        have hij : j0 ≠ i := by
          intro hji
          subst hji
          rw [hsi'] at hkey
          exact hne hkey
        rw [hs', List.getElem?_set_ne hij, hsi]
      · intro heq
        have hij : i = j0 := by
          by_contra hne'
          have hilen2 : i < (st.stockValues.activeStocks.map
              (fun s => s.symbol.toUpper)).length := by simpa using hilen
          have hj02 : j0 < (st.stockValues.activeStocks.map
              (fun s => s.symbol.toUpper)).length := by simpa using hj0
          have h1 : (st.stockValues.activeStocks.map (fun s => s.symbol.toUpper))[i]
              = (st.stockValues.activeStocks.map (fun s => s.symbol.toUpper))[j0] := by
            simp only [List.getElem_map]
            rw [hsi', heq, hkey]
          exact hne' ((List.Nodup.getElem_inj_iff hnd).mp h1)
        subst hij
        refine ⟨price, ts, ?_⟩
        rw [hs', List.getElem?_set_self hilen, ← hsi']
  · have hall : ∀ s ∈ st.stockValues.activeStocks, s.symbol.toUpper ≠ symbol.toUpper := by
      intro s hs he
      exact hex ⟨s, hs, he⟩
    rw [addStockToList_no_match symbol shares price _ _ ts _ hall] at hs'
    refine ⟨?_, fun hm => absurd hm hex, fun _ => ⟨price, ts, hs'⟩⟩
    rw [hs', List.map_append]
    simp only [List.map_cons, List.map_nil]
    rw [List.nodup_append]
    refine ⟨hnd, by simp, ?_⟩
    intro a ha
    simp only [List.mem_map] at ha
    obtain ⟨s, hs, rfl⟩ := ha
    simp only [List.mem_singleton]
    rw [toUpper_idem]
    intro he
    exact hall s hs he

/-- Evaluation of the rounded valuation at 20 shares of price 150. -/
theorem mv20x150 : jsRoundCurrency ((JSNum.fin 20).mul (.fin 150)) = .fin 3000 := by
  show JSNum.fin (roundCurrencyQ (20 * 150)) = .fin 3000
  have h1 : (20 : ℚ) * 150 = 3000 := by norm_num
  rw [h1, roundCurrencyQ_eq 3000 300000 (by norm_num) (by norm_num)]
  exact congrArg JSNum.fin (by norm_num)

/-- Evaluation of the rounded zakat due on a market value of 3000. -/
theorem zd3000 : jsRoundCurrency ((JSNum.fin 3000).mul (.fin ZAKAT_RATE)) = .fin 75 := by
  show JSNum.fin (roundCurrencyQ (3000 * ZAKAT_RATE)) = .fin 75
  have h1 : (3000 : ℚ) * ZAKAT_RATE = 75 := by norm_num [ZAKAT_RATE]
  rw [h1, roundCurrencyQ_eq 75 7500 (by norm_num) (by norm_num)]
  exact congrArg JSNum.fin (by norm_num)

/-- Witness for C5: re-adding the AAPL symbol written in lower case, with 20
shares at fetched price 150, keeps the canonical symbols unique, keeps the
list length at one, and replaces the holding's data in place. -/
theorem addActiveStock_unique_symbols_witness :
    ((stAAfter.stockValues.activeStocks.map (fun s => s.symbol.toUpper)).Nodup)
    ∧ stAAfter.stockValues.activeStocks.length = stA.stockValues.activeStocks.length
    ∧ stAAfter.stockValues.activeStocks[0]? = some stockAAPLUpdated := by
  have hbeq : (stockAAPL.symbol.toUpper == "aapl".toUpper) = true := by
    rw [show stockAAPL.symbol = "AAPL" from rfl, up_AAPL, up_aapl]
    rfl
  have hfi : [stockAAPL].findIdx? (fun s => s.symbol.toUpper == "aapl".toUpper)
      = some 0 := by
    simp [List.findIdx?_cons, hbeq]
  have hA : addActiveStock (.fin 150) "t1" "t2" "aapl" (.fin 20) none stA
      = some stAAfter := by
    obtain ⟨h0, hset⟩ := addStockToList_match "aapl" (.fin 20) (.fin 150)
      (jsRoundCurrency ((JSNum.fin 20).mul (.fin 150)))
      (jsRoundCurrency ((jsRoundCurrency ((JSNum.fin 20).mul (.fin 150))).mul
        (.fin ZAKAT_RATE)))
      "t1" [stockAAPL] 0 hfi
    unfold addActiveStock
    rw [if_neg (by decide)]
    show some { stA with stockValues := { stA.stockValues with
        activeStocks := addStockToList "aapl" (.fin 20) (.fin 150)
          (jsRoundCurrency ((JSNum.fin 20).mul (.fin 150)))
          (jsRoundCurrency ((jsRoundCurrency ((JSNum.fin 20).mul (.fin 150))).mul
            (.fin ZAKAT_RATE)))
          "t1" [stockAAPL] } } = some stAAfter
    rw [hset, mv20x150, zd3000]
    rfl
  have h := addActiveStock_unique_symbols (.fin 150) "t1" "t2" "aapl" (.fin 20) none stA
    stAAfter (by simp [stA]) hA
  have hmem : ∃ s ∈ stA.stockValues.activeStocks, s.symbol.toUpper = "aapl".toUpper :=
    ⟨stockAAPL, by decide, by rw [show stockAAPL.symbol = "AAPL" from rfl, up_AAPL, up_aapl]⟩
  exact ⟨h.1, (h.2.1 hmem).1, rfl⟩

/-- Rounding fixes zero. -/
theorem roundCurrencyQ_zero : roundCurrencyQ 0 = 0 := by
  rw [roundCurrencyQ_eq 0 0 (by norm_num) (by norm_num)]
  norm_num

/-- The placeholder entry's percentage also satisfies the claimed formula for
any positive total, since its value is zero. -/
theorem placeholder_percentage_eval (t : ℚ) (ht : 0 < t) :
    jsRoundCurrency (((jsOfOpt placeholderStocksItem.2.value).div (.fin t)).mul (.fin 100))
      = .fin 0 := by
  have hne : t ≠ 0 := ne_of_gt ht
  show jsRoundCurrency (((JSNum.fin 0).div (.fin t)).mul (.fin 100)) = .fin 0
  simp [JSNum.div, JSNum.mul, hne, jsRoundCurrency, roundCurrencyQ_zero]

/-- Every active-trading entry carries the guarded percentage formula over
its own value field. -/
theorem mem_activeTradingItems (st : StockState) (t : ℚ) (it : String × BreakdownItem)
    (hit : it ∈ activeTradingItems st t) :
    it.2.percentage = (if 0 < t
      then jsRoundCurrency (((jsOfOpt it.2.value).div (.fin t)).mul (.fin 100))
      else .fin 0) := by
  unfold activeTradingItems at hit
  by_cases hl : st.stockValues.activeStocks.length > 0
  · rw [if_pos hl] at hit
    simp only [List.mem_singleton] at hit
    subst hit
    rfl
  · rw [if_neg hl] at hit
    cases hit

/-- Every passive-investments entry carries the guarded percentage formula
over its own value field. -/
theorem mem_passiveInvestmentItems (st : StockState) (t : ℚ) (it : String × BreakdownItem)
    (hit : it ∈ passiveInvestmentItems st t) :
    it.2.percentage = (if 0 < t
      then jsRoundCurrency (((jsOfOpt it.2.value).div (.fin t)).mul (.fin 100))
      else .fin 0) := by
  unfold passiveInvestmentItems at hit
  cases hsp : st.stockValues.passiveInvestments with
  | none =>
    rw [hsp] at hit
    cases hit
  | some p =>
    rw [hsp] at hit
    simp only [List.mem_singleton] at hit
    subst hit
    rfl

/-- Every dividends entry carries the guarded percentage formula over its own
value field. -/
theorem mem_dividendItems (st : StockState) (t : ℚ) (it : String × BreakdownItem)
    (hit : it ∈ dividendItems st t) :
    it.2.percentage = (if 0 < t
      then jsRoundCurrency (((jsOfOpt it.2.value).div (.fin t)).mul (.fin 100))
      else .fin 0) := by
  unfold dividendItems at hit
  by_cases hd : (optOrZero st.stockValues.total_dividend_earnings).gtZero
  · rw [if_pos hd] at hit
    simp only [List.mem_singleton] at hit
    subst hit
    rfl
  · rw [if_neg hd] at hit
    cases hit

/-- C8: in getStocksBreakdown, whenever the grand total is 0 every emitted
category's percentage field is 0 (the division by the total is guarded away),
and whenever the total is positive every category's percentage equals its
value divided by the total times 100, rounded to currency precision. -/
theorem getStocksBreakdown_percentage_guard (st : StockState) :
    ((getStocksBreakdown st).total = 0 →
      ∀ it ∈ (getStocksBreakdown st).items, it.2.percentage = .fin 0)
    ∧ (0 < (getStocksBreakdown st).total →
      ∀ it ∈ (getStocksBreakdown st).items,
        it.2.percentage = jsRoundCurrency
          (((jsOfOpt it.2.value).div (.fin (getStocksBreakdown st).total)).mul (.fin 100))) := by
  have htot : (getStocksBreakdown st).total = getTotalStocks st := rfl
  have hitems : (getStocksBreakdown st).items
      = (if (activeTradingItems st (getTotalStocks st)
            ++ passiveInvestmentItems st (getTotalStocks st)
            ++ dividendItems st (getTotalStocks st)).isEmpty
         then [placeholderStocksItem]
         else activeTradingItems st (getTotalStocks st)
            ++ passiveInvestmentItems st (getTotalStocks st)
            ++ dividendItems st (getTotalStocks st)) := rfl
  have key : ∀ it ∈ (getStocksBreakdown st).items,
      it = placeholderStocksItem ∨
      it.2.percentage = (if 0 < getTotalStocks st
        then jsRoundCurrency
          (((jsOfOpt it.2.value).div (.fin (getTotalStocks st))).mul (.fin 100))
        else .fin 0) := by
    intro it hit
    rw [hitems] at hit
    by_cases he : (activeTradingItems st (getTotalStocks st)
        ++ passiveInvestmentItems st (getTotalStocks st)
        ++ dividendItems st (getTotalStocks st)).isEmpty
    · rw [if_pos he] at hit
      left
      simpa using hit
    · rw [if_neg he] at hit
      right
      rcases List.mem_append.mp hit with hit' | hit'
      · rcases List.mem_append.mp hit' with hit'' | hit''
        · exact mem_activeTradingItems st _ it hit''
        · exact mem_passiveInvestmentItems st _ it hit''
      · exact mem_dividendItems st _ it hit'
  constructor
  · intro h0 it hit
    rcases key it hit with rfl | hp
    · rfl
    · have h0' : getTotalStocks st = 0 := htot ▸ h0
      rw [hp, if_neg (by rw [h0']; norm_num)]
  · intro hpos it hit
    have hpos' : 0 < getTotalStocks st := htot ▸ hpos
    rcases key it hit with rfl | hp
    · exact (placeholder_percentage_eval (getTotalStocks st) hpos').symm
    · rw [hp, if_pos hpos']
      rfl

/-- Witness for C8 at a concrete aggregate with a positive total of 1000:
every emitted category's percentage is its value over the total. -/
theorem getStocksBreakdown_percentage_guard_witness :
    (getStocksBreakdown stT).total = 1000
    ∧ ∀ it ∈ (getStocksBreakdown stT).items,
        it.2.percentage = jsRoundCurrency
          (((jsOfOpt it.2.value).div (.fin (getStocksBreakdown stT).total)).mul (.fin 100)) := by
  have ht : (getStocksBreakdown stT).total = 1000 := by
    show getTotalStocks stT = 1000
    have h : getTotalStocks stT = roundCurrencyQ (0 + 1000 + 0 + 0) := rfl
    rw [h, show ((0 : ℚ) + 1000 + 0 + 0) = 1000 by norm_num]
    rw [roundCurrencyQ_eq 1000 100000 (by norm_num) (by norm_num)]
    norm_num
  exact ⟨ht, (getStocksBreakdown_percentage_guard stT).2 (by rw [ht]; norm_num)⟩
